import Mathlib

/-!
# The optimisation bisector, llvm/lib/IR/OptBisect.cpp

A shallow embedding of the pass gate of `OptBisect.cpp` and the properties of
its decision engine.

* C++ `int` is a 32-bit two's complement integer.  Values are carried as `Int`
  and the one arithmetic operation of the file, the pre-increment
  `++LastBisectNum`, is reduced into the range of `int` by `wrapInt`.
* `StringRef` is `String`; the stream `errs()` is the text written to it so far.
* `assert(isEnabled())` is the checked build's assertion: a failed assertion
  ends the process, which is the result `Except.error p`, where `p` is the
  state of the process at that point.
* The class declaration (`llvm/IR/OptBisect.h`) is not part of the sources.  The
  constant `OptBisect::Disabled` is a parameter of every definition that uses
  it; the members the header defines are modelled from the specification and
  marked as such.
-/

namespace llvm

/-! ## Machine integers -/

/-- The least value of a C++ `int`. -/
def INT_MIN : Int := -2147483648

/-- The greatest value of a C++ `int`. -/
def INT_MAX : Int := 2147483647

/-- Reduction of a mathematical integer into the range of a 32-bit two's
complement `int`. -/
def wrapInt (x : Int) : Int := (x + 2147483648) % 4294967296 - 2147483648

/-- The value of `++x` on an `int`.  C++ gives signed overflow no defined
result; the embedding takes the two's complement result, so that `++` of
`INT_MAX` is `INT_MIN`.  Whatever an implementation does there, the result is an
`int` and cannot be `INT_MAX + 1`. -/
def preIncrement (x : Int) : Int := wrapInt (x + 1)

/-! ## Gate state -/

/-- Modelled from the spec: the data members of `class OptBisect`, declared in
`llvm/IR/OptBisect.h`, which is not among the sources.  `BisectLimit` is the
limit and `LastBisectNum` the counter of the gate state.  Both are taken to be
`int`: the source stores `++LastBisectNum` in an `int`, compares it with
`BisectLimit`, and sets the limit from an `int` option. -/
structure OptBisect where
  BisectLimit : Int
  LastBisectNum : Int
  deriving DecidableEq, Repr

/-- Modelled from the spec: `OptBisect::isEnabled()`, defined in
`llvm/IR/OptBisect.h`: true iff the limit is not the `Disabled` sentinel. -/
def OptBisect.isEnabled (Disabled : Int) (self : OptBisect) : Bool :=
  self.BisectLimit != Disabled

/-- Modelled from the spec: `OptBisect::setLimit(int)`, defined in
`llvm/IR/OptBisect.h`: a configuration change updates the limit and never
touches the counter. -/
def OptBisect.setLimit (self : OptBisect) (Limit : Int) : OptBisect :=
  { self with BisectLimit := Limit }

/-- The statics of the translation unit together with the diagnostic stream:
the function-local `OptBisector` of `getOptBisector`, the values of the options
`OptBisectLimit` and `OptBisectVerbose`, and the text written to `errs()`. -/
structure Process where
  OptBisector : OptBisect
  OptBisectLimit : Int
  OptBisectVerbose : Bool
  errs : String
  deriving DecidableEq, Repr

/-- `getOptBisector()`: the one function-local static instance. -/
def getOptBisector (p : Process) : OptBisect := p.OptBisector

/-- `getGlobalPassGate()`: returns `getOptBisector()`. -/
def getGlobalPassGate (p : Process) : OptBisect := getOptBisector p

/-- `DefaultLimit`: `-1` under `ENABLE_DEBUGLOC_ORIGIN_TRACKING`, otherwise
`OptBisect::Disabled`. -/
def DefaultLimit (Disabled : Int) (originTracking : Bool) : Int :=
  if originTracking then -1 else Disabled

/-- `DefaultVerbose`: `false` under `ENABLE_DEBUGLOC_ORIGIN_TRACKING`, otherwise
`true`. -/
def DefaultVerbose (originTracking : Bool) : Bool :=
  if originTracking then false else true

/-- An occurrence of `-opt-bisect-limit=Limit`: the option stores the value and
runs its callback `getOptBisector().setLimit(Limit)`. -/
def setOptBisectLimit (Limit : Int) (p : Process) : Process :=
  { p with OptBisectLimit := Limit, OptBisector := (getOptBisector p).setLimit Limit }

/-- An occurrence of `-opt-bisect-verbose=Verbose`: the option stores the value;
it has no callback. -/
def setOptBisectVerbose (Verbose : Bool) (p : Process) : Process :=
  { p with OptBisectVerbose := Verbose }

/-! ## Decision engine -/

/-- `printPassMessage`: the text of the stream after the message is written. -/
def printPassMessage (errs : String) (Name : String) (PassNum : Int)
    (TargetDesc : String) (Running : Bool) : String :=
  let Status := if Running then "" else "NOT "
  errs ++ "BISECT: " ++ Status ++ "running pass " ++ "(" ++ toString PassNum ++ ") "
    ++ Name ++ " on " ++ TargetDesc ++ "\n"

/-- `OptBisect::shouldRunPass` on the process-wide instance: `Except.error p`
when the assertion fails in state `p`, otherwise the verdict and the state the
call leaves. -/
def shouldRunPass (Disabled : Int) (PassName IRDescription : String)
    (p : Process) : Except Process (Bool × Process) :=
  if (getOptBisector p).isEnabled Disabled then
    let CurBisectNum := preIncrement p.OptBisector.LastBisectNum
    let ShouldRun := (p.OptBisector.BisectLimit == -1
      || decide (CurBisectNum ≤ p.OptBisector.BisectLimit))
    let out := if p.OptBisectVerbose then
        printPassMessage p.errs PassName CurBisectNum IRDescription ShouldRun
      else p.errs
    .ok (ShouldRun,
      { p with OptBisector := { p.OptBisector with LastBisectNum := CurBisectNum },
               errs := out })
  else .error p

/-- The pass-execution framework consulting the gate once for each pass/unit
pair of `calls`, in order: the verdicts, and the state after the last call; a
failed assertion ends the run. -/
def runPasses (Disabled : Int) : List (String × String) → Process →
    Except Process (List Bool × Process)
  | [], p => .ok ([], p)
  | c :: cs, p =>
    match shouldRunPass Disabled c.1 c.2 p with
    | .error e => .error e
    | .ok (v, p1) =>
      match runPasses Disabled cs p1 with
      | .error e => .error e
      | .ok (vs, p2) => .ok (v :: vs, p2)

/-- A process whose gate has limit `Limit` and counter `0`, with nothing
written to the stream yet. -/
def freshProcess (Limit : Int) (Verbose : Bool) : Process :=
  { OptBisector := { BisectLimit := Limit, LastBisectNum := 0 },
    OptBisectLimit := Limit, OptBisectVerbose := Verbose, errs := "" }

/-- The verdict line of `shouldRunPass` for limit `Limit` and sequence number
`n`, used to state results about runs of calls. -/
def verdictAt (Limit n : Int) : Bool := Limit == -1 || decide (n ≤ Limit)

/-- The state an enabled call `shouldRunPass(PassName, IRDescription)` leaves,
written out field by field. -/
def stateAfterCall (PassName IRDescription : String) (p : Process) : Process :=
  { OptBisector :=
      { BisectLimit := p.OptBisector.BisectLimit,
        LastBisectNum := preIncrement p.OptBisector.LastBisectNum },
    OptBisectLimit := p.OptBisectLimit,
    OptBisectVerbose := p.OptBisectVerbose,
    errs := if p.OptBisectVerbose then
        printPassMessage p.errs PassName (preIncrement p.OptBisector.LastBisectNum)
          IRDescription
          (verdictAt p.OptBisector.BisectLimit (preIncrement p.OptBisector.LastBisectNum))
      else p.errs }

/-- Modelled from the spec: the state of the process when no option occurs on
the command line.  The two options hold their `cl::init` values, as in the
source.  The gate `OptBisector` is built by the constructor of `class OptBisect`
(`llvm/IR/OptBisect.h`, not among the sources): its counter starts at `0` and
its limit is the default limit of the build mode. -/
def initialProcess (Disabled : Int) (originTracking : Bool) : Process :=
  { OptBisector :=
      { BisectLimit := DefaultLimit Disabled originTracking, LastBisectNum := 0 },
    OptBisectLimit := DefaultLimit Disabled originTracking,
    OptBisectVerbose := DefaultVerbose originTracking,
    errs := "" }

/-- What a caller learns about the decision from a call: the verdict and the
counter the call leaves, or nothing when the assertion failed. -/
def verdictAndCounter : Except Process (Bool × Process) → Option (Bool × Int)
  | .ok (v, p) => some (v, p.OptBisector.LastBisectNum)
  | .error _ => none

/-! ## Auxiliary facts -/

lemma wrapInt_of_range (x : Int) (h1 : INT_MIN ≤ x) (h2 : x ≤ INT_MAX) :
    wrapInt x = x := by
  unfold INT_MIN at h1
  unfold INT_MAX at h2
  unfold wrapInt
  omega

lemma wrapInt_add_wrapInt (x k : Int) : wrapInt (wrapInt x + k) = wrapInt (x + k) := by
  unfold wrapInt
  omega

lemma preIncrement_of_lt (x : Int) (h1 : INT_MIN ≤ x) (h2 : x < INT_MAX) :
    preIncrement x = x + 1 := by
  unfold INT_MIN at h1
  unfold INT_MAX at h2
  unfold preIncrement wrapInt
  omega

lemma preIncrement_INT_MAX : preIncrement INT_MAX = INT_MIN := by decide

@[simp] lemma stateAfterCall_BisectLimit (PassName IRDescription : String) (p : Process) :
    (stateAfterCall PassName IRDescription p).OptBisector.BisectLimit
      = p.OptBisector.BisectLimit := rfl

@[simp] lemma stateAfterCall_LastBisectNum (PassName IRDescription : String) (p : Process) :
    (stateAfterCall PassName IRDescription p).OptBisector.LastBisectNum
      = preIncrement p.OptBisector.LastBisectNum := rfl

@[simp] lemma stateAfterCall_OptBisectVerbose (PassName IRDescription : String)
    (p : Process) :
    (stateAfterCall PassName IRDescription p).OptBisectVerbose = p.OptBisectVerbose := rfl

@[simp] lemma stateAfterCall_OptBisectLimit (PassName IRDescription : String)
    (p : Process) :
    (stateAfterCall PassName IRDescription p).OptBisectLimit = p.OptBisectLimit := rfl

/-- An enabled call returns: its verdict and the state it leaves. -/
lemma shouldRunPass_of_enabled (Disabled : Int) (PassName IRDescription : String)
    (p : Process) (hen : (getOptBisector p).isEnabled Disabled = true) :
    shouldRunPass Disabled PassName IRDescription p =
      .ok (verdictAt p.OptBisector.BisectLimit (preIncrement p.OptBisector.LastBisectNum),
        stateAfterCall PassName IRDescription p) := by
  simp only [shouldRunPass, hen, verdictAt, stateAfterCall, if_true]

/-- A call on a disabled gate fails. -/
lemma shouldRunPass_of_disabled (Disabled : Int) (PassName IRDescription : String)
    (p : Process) (hdis : (getOptBisector p).isEnabled Disabled = false) :
    shouldRunPass Disabled PassName IRDescription p = .error p := by
  simp [shouldRunPass, hdis]

lemma isEnabled_iff (Disabled : Int) (g : OptBisect) :
    g.isEnabled Disabled = true ↔ g.BisectLimit ≠ Disabled := by
  simp [OptBisect.isEnabled]

/-! ## Runs of calls -/

lemma runPasses_cons (Disabled : Int) (c : String × String) (cs : List (String × String))
    (p : Process) (hen : (getOptBisector p).isEnabled Disabled = true) :
    runPasses Disabled (c :: cs) p =
      (runPasses Disabled cs (stateAfterCall c.1 c.2 p)).map
        (fun r => (verdictAt p.OptBisector.BisectLimit
          (preIncrement p.OptBisector.LastBisectNum) :: r.1, r.2)) := by
  rw [runPasses, shouldRunPass_of_enabled Disabled c.1 c.2 p hen]
  simp only []
  cases runPasses Disabled cs _ with
  | error e => rfl
  | ok r => rfl

/-- On an enabled gate a run of calls never fails; it leaves the limit and the
verbose flag as they were, and its verdicts and final counter are those of the
wrapped sequence numbers. -/
lemma runPasses_of_enabled (Disabled : Int) (cs : List (String × String)) :
    ∀ p : Process, (getOptBisector p).isEnabled Disabled = true →
    ∃ vs p', runPasses Disabled cs p = .ok (vs, p') ∧
      vs.length = cs.length ∧
      p'.OptBisector.BisectLimit = p.OptBisector.BisectLimit ∧
      p'.OptBisectVerbose = p.OptBisectVerbose ∧
      p'.OptBisector.LastBisectNum =
        (if cs.length = 0 then p.OptBisector.LastBisectNum
         else wrapInt (p.OptBisector.LastBisectNum + cs.length)) ∧
      ∀ (i : Nat) (h : i < vs.length),
        vs[i] = verdictAt p.OptBisector.BisectLimit
          (wrapInt (p.OptBisector.LastBisectNum + i + 1)) := by
  induction cs with
  | nil =>
    intro p _
    exact ⟨[], p, rfl, rfl, rfl, rfl, by simp, fun i h => absurd h (by simp)⟩
  | cons c cs ih =>
    intro p hen
    obtain ⟨vs, p', hrun, hlen, hlim, hverb, hcnt, hvs⟩ :=
      ih (stateAfterCall c.1 c.2 p) hen
    refine ⟨verdictAt p.OptBisector.BisectLimit
      (preIncrement p.OptBisector.LastBisectNum) :: vs, p', ?_, ?_, hlim, hverb, ?_, ?_⟩
    · rw [runPasses_cons Disabled c cs p hen, hrun]
      rfl
    · simp [hlen]
    · rw [hcnt]
      simp only [List.length_cons, Nat.succ_ne_zero, if_false, stateAfterCall]
      split
      · next h0 =>
        rw [h0]
        simp [preIncrement]
      · simp only [preIncrement, wrapInt]
        push_cast
        omega
    · intro i h
      cases i with
      | zero => simp [preIncrement]
      | succ j =>
        simp only [List.getElem_cons_succ]
        rw [hvs j (by simpa using h)]
        simp only [stateAfterCall]
        congr 1
        simp only [preIncrement, wrapInt]
        push_cast
        omega

/-- A run over `as ++ bs` is the run over `as` followed by the run over `bs`. -/
lemma runPasses_append (Disabled : Int) (as bs : List (String × String)) :
    ∀ p : Process, runPasses Disabled (as ++ bs) p =
      (runPasses Disabled as p).bind fun r =>
        (runPasses Disabled bs r.2).map fun r2 => (r.1 ++ r2.1, r2.2) := by
  induction as with
  | nil =>
    intro p
    rw [List.nil_append]
    simp only [runPasses, Except.bind]
    cases runPasses Disabled bs p with
    | error e => rfl
    | ok r => simp [Except.map]
  | cons a as ih =>
    intro p
    rw [List.cons_append]
    simp only [runPasses]
    cases shouldRunPass Disabled a.1 a.2 p with
    | error e => rfl
    | ok r =>
      obtain ⟨v, p1⟩ := r
      simp only []
      rw [ih p1]
      cases runPasses Disabled as p1 with
      | error e => rfl
      | ok r1 =>
        obtain ⟨vs, p2⟩ := r1
        simp only [Except.bind]
        cases runPasses Disabled bs p2 with
        | error e => rfl
        | ok r2 => simp [Except.map]

/-- Whether the gate is enabled is not changed by a call. -/
@[simp] lemma isEnabled_stateAfterCall (Disabled : Int) (PassName IRDescription : String)
    (p : Process) :
    (getOptBisector (stateAfterCall PassName IRDescription p)).isEnabled Disabled
      = (getOptBisector p).isEnabled Disabled := rfl

/-- With the verbose option off, a call leaves the stream as it was. -/
lemma stateAfterCall_errs_of_quiet (PassName IRDescription : String) (p : Process)
    (hverb : p.OptBisectVerbose = false) :
    (stateAfterCall PassName IRDescription p).errs = p.errs := by
  simp [stateAfterCall, hverb]

/-- The text `printPassMessage` appends for a pass that runs. -/
lemma printPassMessage_running (errs Name : String) (PassNum : Int) (TargetDesc : String) :
    printPassMessage errs Name PassNum TargetDesc true =
      errs ++ ("BISECT: running pass (" ++ toString PassNum ++ ") " ++ Name ++ " on "
        ++ TargetDesc ++ "\n") := by
  simp only [printPassMessage, if_true, String.append_assoc]
  rfl

/-- The text `printPassMessage` appends for a pass that does not run. -/
lemma printPassMessage_not_running (errs Name : String) (PassNum : Int)
    (TargetDesc : String) :
    printPassMessage errs Name PassNum TargetDesc false =
      errs ++ ("BISECT: NOT running pass (" ++ toString PassNum ++ ") " ++ Name ++ " on "
        ++ TargetDesc ++ "\n") := by
  simp only [printPassMessage, String.append_assoc]
  rfl

/-- With the verbose option off, a run of calls leaves the stream as it was,
whether it returns or ends in a failed assertion. -/
lemma runPasses_errs_of_quiet (Disabled : Int) (cs : List (String × String)) :
    ∀ p : Process, p.OptBisectVerbose = false →
      (∀ r, runPasses Disabled cs p = .ok r → r.2.errs = p.errs) ∧
      (∀ e, runPasses Disabled cs p = .error e → e.errs = p.errs) := by
  induction cs with
  | nil =>
    intro p _
    constructor
    · intro r hr
      simp only [runPasses] at hr
      cases hr
      rfl
    · intro e he
      simp only [runPasses] at he
      cases he
  | cons c cs ih =>
    intro p hverb
    cases hen : (getOptBisector p).isEnabled Disabled with
    | false =>
      have hcall := shouldRunPass_of_disabled Disabled c.1 c.2 p hen
      constructor
      · intro r hr
        simp only [runPasses, hcall] at hr
        cases hr
      · intro e he
        simp only [runPasses, hcall] at he
        cases he
        rfl
    | true =>
      have hq : (stateAfterCall c.1 c.2 p).OptBisectVerbose = false := by
        rw [stateAfterCall_OptBisectVerbose, hverb]
      obtain ⟨ihok, iherr⟩ := ih (stateAfterCall c.1 c.2 p) hq
      have herrs := stateAfterCall_errs_of_quiet c.1 c.2 p hverb
      rw [runPasses_cons Disabled c cs p hen]
      cases hrun : runPasses Disabled cs (stateAfterCall c.1 c.2 p) with
      | error e1 =>
        constructor
        · intro r hr
          cases hr
        · intro e he
          cases he
          exact (iherr _ hrun).trans herrs
      | ok r1 =>
        constructor
        · intro r hr
          cases hr
          exact (ihok _ hrun).trans herrs
        · intro e he
          cases he

/-- A run of at most `INT_MAX` calls from counter `0` on an enabled gate: the
call at index `i` has sequence number `i + 1`, and the counter ends at the
number of calls. -/
lemma runPasses_fresh (Disabled : Int) (cs : List (String × String)) (p : Process)
    (hfresh : p.OptBisector.LastBisectNum = 0)
    (hen : (getOptBisector p).isEnabled Disabled = true)
    (hlen : (cs.length : Int) ≤ INT_MAX) :
    ∃ vs p', runPasses Disabled cs p = .ok (vs, p') ∧
      vs.length = cs.length ∧
      p'.OptBisector.BisectLimit = p.OptBisector.BisectLimit ∧
      p'.OptBisectVerbose = p.OptBisectVerbose ∧
      p'.OptBisector.LastBisectNum = cs.length ∧
      ∀ (i : Nat) (h : i < vs.length),
        vs[i] = verdictAt p.OptBisector.BisectLimit ((i : Int) + 1) := by
  unfold INT_MAX at hlen
  obtain ⟨vs, p', hrun, hvlen, hlim, hverb, hcnt, hvs⟩ :=
    runPasses_of_enabled Disabled cs p hen
  refine ⟨vs, p', hrun, hvlen, hlim, hverb, ?_, ?_⟩
  · rw [hcnt, hfresh]
    split
    · next h0 => simp [h0]
    · simp only [wrapInt]
      omega
  · intro i h
    have hi : (i : Int) < 2147483647 := by omega
    have hw : wrapInt (0 + (i : Int) + 1) = (i : Int) + 1 := by
      simp only [wrapInt]
      omega
    rw [hvs i h, hfresh, hw]

/-! ## The claims -/

/-- C1: with a non-negative limit `K` on an enabled gate, a call returns, its
sequence number `n` is the incremented counter, and the verdict is true exactly
when `n ≤ K`; the call with `n = K` is allowed and the call with `n = K + 1` is
suppressed. -/
theorem shouldRunPass_true_iff_le_limit (Disabled K : Int)
    (PassName IRDescription : String) (p : Process)
    (hK : 0 ≤ K) (hlim : p.OptBisector.BisectLimit = K)
    (hen : (getGlobalPassGate p).isEnabled Disabled = true) :
    ∃ v p', shouldRunPass Disabled PassName IRDescription p = .ok (v, p') ∧
      p'.OptBisector.LastBisectNum = preIncrement p.OptBisector.LastBisectNum ∧
      (v = true ↔ p'.OptBisector.LastBisectNum ≤ K) ∧
      (p'.OptBisector.LastBisectNum = K → v = true) ∧
      (p'.OptBisector.LastBisectNum = K + 1 → v = false) := by
  have hne : K ≠ -1 := by omega
  refine ⟨_, _, shouldRunPass_of_enabled Disabled PassName IRDescription p hen, rfl, ?_, ?_, ?_⟩
  · simp [verdictAt, hlim, hne]
  · intro h
    rw [stateAfterCall_LastBisectNum] at h
    simp [verdictAt, hlim, hne, h]
  · intro h
    rw [stateAfterCall_LastBisectNum] at h
    simp [verdictAt, hlim, hne, h]

/-- C1, at limit 2 with the counter at 1: the boundary call is allowed. -/
theorem shouldRunPass_true_iff_le_limit_witness :
    ∃ v p', shouldRunPass 2147483647 "foo" "M1"
        ⟨⟨2, 1⟩, 2, false, ""⟩ = .ok (v, p') ∧
      p'.OptBisector.LastBisectNum = preIncrement 1 ∧
      (v = true ↔ p'.OptBisector.LastBisectNum ≤ 2) ∧
      (p'.OptBisector.LastBisectNum = 2 → v = true) ∧
      (p'.OptBisector.LastBisectNum = 2 + 1 → v = false) :=
  shouldRunPass_true_iff_le_limit 2147483647 2 "foo" "M1" ⟨⟨2, 1⟩, 2, false, ""⟩
    (by decide) rfl (by decide)

/-- C2: with the limit at the Unlimited sentinel `-1`, every call returns true,
whatever the counter, the pass name and the IR description are, and the counter
is incremented by the call. -/
theorem shouldRunPass_unlimited (Disabled : Int) (hD : Disabled ≠ -1)
    (PassName IRDescription : String) (p : Process)
    (hlim : p.OptBisector.BisectLimit = -1) :
    ∃ p', shouldRunPass Disabled PassName IRDescription p = .ok (true, p') ∧
      p'.OptBisector.LastBisectNum = preIncrement p.OptBisector.LastBisectNum ∧
      (INT_MIN ≤ p.OptBisector.LastBisectNum → p.OptBisector.LastBisectNum < INT_MAX →
        p'.OptBisector.LastBisectNum = p.OptBisector.LastBisectNum + 1) := by
  have hen : (getOptBisector p).isEnabled Disabled = true := by
    rw [isEnabled_iff]
    show p.OptBisector.BisectLimit ≠ Disabled
    rw [hlim]
    exact fun h => hD h.symm
  have hv : verdictAt p.OptBisector.BisectLimit
      (preIncrement p.OptBisector.LastBisectNum) = true := by
    simp [verdictAt, hlim]
  rw [shouldRunPass_of_enabled Disabled PassName IRDescription p hen, hv]
  exact ⟨_, rfl, rfl, fun h1 h2 => preIncrement_of_lt _ h1 h2⟩

/-- C2, at counter 41 with the sentinel `Disabled` at the greatest `int`. -/
theorem shouldRunPass_unlimited_witness :
    ∃ p', shouldRunPass 2147483647 "licm" "loop" ⟨⟨-1, 41⟩, -1, true, ""⟩
        = .ok (true, p') ∧
      p'.OptBisector.LastBisectNum = preIncrement 41 ∧
      (INT_MIN ≤ 41 → (41 : Int) < INT_MAX → p'.OptBisector.LastBisectNum = 41 + 1) :=
  shouldRunPass_unlimited 2147483647 (by decide) "licm" "loop" ⟨⟨-1, 41⟩, -1, true, ""⟩ rfl

/-- C3 (amended): from a fresh, enabled gate and for every run of at most
`INT_MAX` calls, the run returns and leaves the counter at the number of calls
made; the call after `n` earlier ones starts from counter `n`, returns whatever
its verdict is, and observes sequence number `n + 1`. -/
theorem runPasses_counts_calls (Disabled : Int) (cs : List (String × String)) (p : Process)
    (hfresh : p.OptBisector.LastBisectNum = 0)
    (hen : (getGlobalPassGate p).isEnabled Disabled = true)
    (hlen : (cs.length : Int) ≤ INT_MAX) :
    (∃ vs p', runPasses Disabled cs p = .ok (vs, p') ∧
      p'.OptBisector.LastBisectNum = cs.length) ∧
    ∀ (n : Nat) (hn : n < cs.length),
      ∃ vs q v q', runPasses Disabled (cs.take n) p = .ok (vs, q) ∧
        q.OptBisector.LastBisectNum = n ∧
        shouldRunPass Disabled cs[n].1 cs[n].2 q = .ok (v, q') ∧
        q'.OptBisector.LastBisectNum = n + 1 ∧
        runPasses Disabled (cs.take (n + 1)) p = .ok (vs ++ [v], q') := by
  unfold INT_MAX at hlen
  constructor
  · obtain ⟨vs, p', hrun, -, -, -, hcnt, -⟩ := runPasses_of_enabled Disabled cs p hen
    refine ⟨vs, p', hrun, ?_⟩
    rw [hcnt, hfresh]
    split
    · next h0 => simp [h0]
    · simp only [wrapInt]
      omega
  · intro n hn
    obtain ⟨vs, q, hrun, -, hlim, -, hcnt, -⟩ :=
      runPasses_of_enabled Disabled (cs.take n) p hen
    have hq : (getOptBisector q).isEnabled Disabled = true := by
      rw [isEnabled_iff] at hen ⊢
      show q.OptBisector.BisectLimit ≠ Disabled
      rw [hlim]
      exact hen
    have hn' : (cs.take n).length = n := by
      rw [List.length_take]
      omega
    have hqc : q.OptBisector.LastBisectNum = n := by
      rw [hcnt, hfresh, hn']
      split
      · next h0 => simp [h0]
      · simp only [wrapInt]
        omega
    have hcall := shouldRunPass_of_enabled Disabled cs[n].1 cs[n].2 q hq
    refine ⟨vs, q, _, _, hrun, hqc, hcall, ?_, ?_⟩
    · rw [stateAfterCall_LastBisectNum, hqc]
      simp only [preIncrement, wrapInt]
      omega
    · rw [← List.take_concat_get cs n hn, List.concat_eq_append,
        runPasses_append, hrun]
      simp only [runPasses, Except.bind, hcall, Except.map]

/-- C3, on the three calls of the specification's example. -/
theorem runPasses_counts_calls_witness :
    (∃ vs p', runPasses 2147483647 [("foo", "M1"), ("bar", "M2"), ("baz", "M3")]
        (freshProcess 2 true) = .ok (vs, p') ∧
      p'.OptBisector.LastBisectNum =
        ([("foo", "M1"), ("bar", "M2"), ("baz", "M3")] : List (String × String)).length) ∧
    ∀ (n : Nat) (hn : n < ([("foo", "M1"), ("bar", "M2"), ("baz", "M3")] :
        List (String × String)).length),
      ∃ vs q v q', runPasses 2147483647
          (([("foo", "M1"), ("bar", "M2"), ("baz", "M3")] : List (String × String)).take n)
          (freshProcess 2 true) = .ok (vs, q) ∧
        q.OptBisector.LastBisectNum = n ∧
        shouldRunPass 2147483647
          ([("foo", "M1"), ("bar", "M2"), ("baz", "M3")] : List (String × String))[n].1
          ([("foo", "M1"), ("bar", "M2"), ("baz", "M3")] : List (String × String))[n].2 q
          = .ok (v, q') ∧
        q'.OptBisector.LastBisectNum = n + 1 ∧
        runPasses 2147483647
          (([("foo", "M1"), ("bar", "M2"), ("baz", "M3")] : List (String × String)).take
            (n + 1))
          (freshProcess 2 true) = .ok (vs ++ [v], q') :=
  runPasses_counts_calls 2147483647 [("foo", "M1"), ("bar", "M2"), ("baz", "M3")]
    (freshProcess 2 true) rfl (by decide) (by decide)

/-- C3 fails as stated: after 2147483648 calls on a fresh gate with limit `-1`
the counter is `-2147483648`, not the number of calls made. -/
theorem runPasses_counter_wraps :
    ∃ vs p', runPasses 2147483647 (List.replicate 2147483648 ("", ""))
        (freshProcess (-1) false) = .ok (vs, p') ∧
      p'.OptBisector.LastBisectNum = -2147483648 ∧
      p'.OptBisector.LastBisectNum ≠ 2147483648 := by
  obtain ⟨vs, p', hrun, -, -, -, hcnt, -⟩ :=
    runPasses_of_enabled 2147483647 (List.replicate 2147483648 ("", ""))
      (freshProcess (-1) false) (by decide)
  rw [List.length_replicate] at hcnt
  have h : p'.OptBisector.LastBisectNum = -2147483648 := by
    rw [hcnt]
    decide
  exact ⟨vs, p', hrun, h, by rw [h]; decide⟩

/-- C4 (amended): with a non-negative limit `K`, from a fresh, enabled gate and
for every run of `m ≤ INT_MAX` calls, the calls that return true are exactly the
first `min m K`; every later call returns false, so no call is allowed after a
suppressed one. -/
theorem runPasses_allows_first_K (Disabled K : Int) (cs : List (String × String))
    (p : Process) (hK : 0 ≤ K) (hlim : p.OptBisector.BisectLimit = K)
    (hfresh : p.OptBisector.LastBisectNum = 0)
    (hen : (getGlobalPassGate p).isEnabled Disabled = true)
    (hlen : (cs.length : Int) ≤ INT_MAX) :
    ∃ vs p', runPasses Disabled cs p = .ok (vs, p') ∧
      vs = List.replicate (min cs.length K.toNat) true
        ++ List.replicate (cs.length - min cs.length K.toNat) false ∧
      (∀ (i : Nat) (h : i < vs.length), (vs[i] = true ↔ i < min cs.length K.toNat)) ∧
      (∀ (i j : Nat) (_ : i ≤ j) (hj : j < vs.length),
        vs[i] = false → vs[j] = false) := by
  unfold INT_MAX at hlen
  obtain ⟨vs, p', hrun, hvlen, -, -, -, hvs⟩ := runPasses_of_enabled Disabled cs p hen
  have hne : K ≠ -1 := by omega
  have hpt : ∀ (i : Nat) (h : i < vs.length), (vs[i] = true ↔ (i : Int) + 1 ≤ K) := by
    intro i h
    rw [hvs i h, hlim, hfresh]
    have hw : wrapInt (0 + (i : Int) + 1) = (i : Int) + 1 := by
      simp only [wrapInt]
      omega
    rw [hw]
    simp [verdictAt, hne]
  have hmin : ∀ (i : Nat) (h : i < vs.length),
      (vs[i] = true ↔ i < min cs.length K.toNat) := by
    intro i h
    rw [hpt i h]
    omega
  refine ⟨vs, p', hrun, ?_, hmin, ?_⟩
  · apply List.ext_getElem
    · simp only [List.length_append, List.length_replicate]
      omega
    · intro i h1 h2
      by_cases hi : i < min cs.length K.toNat
      · rw [(hmin i h1).2 hi,
          List.getElem_append_left (by rw [List.length_replicate]; exact hi),
          List.getElem_replicate]
      · have hf : vs[i] = false := by
          cases hv : vs[i] with
          | false => rfl
          | true => exact absurd ((hmin i h1).1 hv) hi
        rw [hf, List.getElem_append_right (by rw [List.length_replicate]; omega),
          List.getElem_replicate]
  · intro i j hij hj hi
    have hi' : i < vs.length := by omega
    cases hv : vs[j] with
    | false => rfl
    | true =>
      have h1 := (hpt j hj).1 hv
      have h2 : vs[i] = true := (hpt i hi').2 (by omega)
      rw [h2] at hi
      exact absurd hi (by decide)

/-- C4, with limit 2 on the three calls of the specification's example. -/
theorem runPasses_allows_first_K_witness :
    ∃ vs p', runPasses 2147483647 [("foo", "M1"), ("bar", "M2"), ("baz", "M3")]
        (freshProcess 2 true) = .ok (vs, p') ∧
      vs = List.replicate (min ([("foo", "M1"), ("bar", "M2"), ("baz", "M3")] :
          List (String × String)).length (2 : Int).toNat) true
        ++ List.replicate (([("foo", "M1"), ("bar", "M2"), ("baz", "M3")] :
            List (String × String)).length -
          min ([("foo", "M1"), ("bar", "M2"), ("baz", "M3")] :
            List (String × String)).length (2 : Int).toNat) false ∧
      (∀ (i : Nat) (h : i < vs.length), (vs[i] = true ↔
        i < min ([("foo", "M1"), ("bar", "M2"), ("baz", "M3")] :
          List (String × String)).length (2 : Int).toNat)) ∧
      (∀ (i j : Nat) (_ : i ≤ j) (hj : j < vs.length),
        vs[i] = false → vs[j] = false) :=
  runPasses_allows_first_K 2147483647 2 [("foo", "M1"), ("bar", "M2"), ("baz", "M3")]
    (freshProcess 2 true) (by decide) rfl rfl (by decide) (by decide)

/-- C4 fails as stated: with limit `0` on a fresh gate the first of 2147483648
calls is suppressed and the last one is allowed. -/
theorem runPasses_allows_after_wrap :
    ∃ vs p', runPasses 2147483647 (List.replicate 2147483648 ("", ""))
        (freshProcess 0 false) = .ok (vs, p') ∧
      vs[0]? = some false ∧ vs[2147483647]? = some true := by
  obtain ⟨vs, p', hrun, hvlen, -, -, -, hvs⟩ :=
    runPasses_of_enabled 2147483647 (List.replicate 2147483648 ("", ""))
      (freshProcess 0 false) (by decide)
  rw [List.length_replicate] at hvlen
  have h0 : 0 < vs.length := by omega
  have h1 : 2147483647 < vs.length := by omega
  refine ⟨vs, p', hrun, ?_, ?_⟩
  · rw [List.getElem?_eq_getElem h0, hvs 0 h0]
    decide
  · rw [List.getElem?_eq_getElem h1, hvs 2147483647 h1]
    decide

/-- C5: a call fails exactly when the gate is disabled, that is when the limit
is the `Disabled` sentinel; the failure precedes every effect, so the state at
the failure is the state before the call (counter not advanced, nothing
written) and no verdict is returned; on an enabled gate the call returns. -/
theorem shouldRunPass_fails_iff_disabled (Disabled : Int)
    (PassName IRDescription : String) (p : Process) :
    ((∃ e, shouldRunPass Disabled PassName IRDescription p = .error e) ↔
      p.OptBisector.BisectLimit = Disabled) ∧
    ((∃ e, shouldRunPass Disabled PassName IRDescription p = .error e) ↔
      (getGlobalPassGate p).isEnabled Disabled = false) ∧
    (∀ e, shouldRunPass Disabled PassName IRDescription p = .error e →
      e = p ∧ e.OptBisector.LastBisectNum = p.OptBisector.LastBisectNum ∧
        e.errs = p.errs) ∧
    ((getGlobalPassGate p).isEnabled Disabled = true →
      ∃ v p', shouldRunPass Disabled PassName IRDescription p = .ok (v, p')) := by
  cases hen : (getOptBisector p).isEnabled Disabled with
  | false =>
    have hcall := shouldRunPass_of_disabled Disabled PassName IRDescription p hen
    have hlim : p.OptBisector.BisectLimit = Disabled := by
      by_contra hne
      have := (isEnabled_iff Disabled (getOptBisector p)).2 hne
      rw [hen] at this
      exact absurd this (by decide)
    refine ⟨⟨fun _ => hlim, fun _ => ⟨p, hcall⟩⟩, ⟨fun _ => hen, fun _ => ⟨p, hcall⟩⟩,
      ?_, ?_⟩
    · intro e he
      rw [hcall] at he
      cases he
      exact ⟨rfl, rfl, rfl⟩
    · intro h
      rw [getGlobalPassGate, hen] at h
      exact absurd h (by decide)
  | true =>
    have hcall := shouldRunPass_of_enabled Disabled PassName IRDescription p hen
    have hlim : p.OptBisector.BisectLimit ≠ Disabled :=
      (isEnabled_iff Disabled (getOptBisector p)).1 hen
    refine ⟨⟨?_, fun h => absurd h hlim⟩, ⟨?_, ?_⟩, ?_, fun _ => ⟨_, _, hcall⟩⟩
    · rintro ⟨e, he⟩
      rw [hcall] at he
      cases he
    · rintro ⟨e, he⟩
      rw [hcall] at he
      cases he
    · intro h
      rw [getGlobalPassGate, hen] at h
      exact absurd h (by decide)
    · intro e he
      rw [hcall] at he
      cases he

/-- C7: with the verbose option on, an enabled call appends exactly one line to
the stream, `BISECT: running pass (n) name on description` when it returns true
and `BISECT: NOT running pass (n) name on description` when it returns false,
`n` being the decimal rendering of the incremented counter; with limit 2 the
three calls of the example write the three lines of the example. -/
theorem shouldRunPass_verbose_line (Disabled : Int) (PassName IRDescription : String)
    (p : Process) (hverb : p.OptBisectVerbose = true)
    (hen : (getGlobalPassGate p).isEnabled Disabled = true) :
    (∃ v p', shouldRunPass Disabled PassName IRDescription p = .ok (v, p') ∧
      p'.OptBisector.LastBisectNum = preIncrement p.OptBisector.LastBisectNum ∧
      (v = true → p'.errs = p.errs ++ ("BISECT: running pass ("
        ++ toString p'.OptBisector.LastBisectNum ++ ") " ++ PassName ++ " on "
        ++ IRDescription ++ "\n")) ∧
      (v = false → p'.errs = p.errs ++ ("BISECT: NOT running pass ("
        ++ toString p'.OptBisector.LastBisectNum ++ ") " ++ PassName ++ " on "
        ++ IRDescription ++ "\n"))) ∧
    (Disabled ≠ 2 →
      ∃ p', runPasses Disabled [("foo", "M1"), ("bar", "M2"), ("baz", "M3")]
          (freshProcess 2 true) = .ok ([true, true, false], p') ∧
        p'.errs = "BISECT: running pass (1) foo on M1\n"
          ++ "BISECT: running pass (2) bar on M2\n"
          ++ "BISECT: NOT running pass (3) baz on M3\n") := by
  constructor
  · refine ⟨_, _, shouldRunPass_of_enabled Disabled PassName IRDescription p hen, rfl, ?_, ?_⟩
    · intro hv
      simp only [stateAfterCall, hverb, if_true, hv]
      exact printPassMessage_running _ _ _ _
    · intro hv
      simp only [stateAfterCall, hverb, if_true, hv]
      exact printPassMessage_not_running _ _ _ _
  · intro hD
    have h0 : (getOptBisector (freshProcess 2 true)).isEnabled Disabled = true :=
      (isEnabled_iff Disabled _).2 (fun h => hD h.symm)
    refine ⟨stateAfterCall "baz" "M3" (stateAfterCall "bar" "M2"
      (stateAfterCall "foo" "M1" (freshProcess 2 true))), ?_, ?_⟩
    · rw [runPasses_cons Disabled _ _ _ h0,
        runPasses_cons Disabled _ _ _ (by simpa using h0),
        runPasses_cons Disabled _ _ _ (by simpa using h0)]
      rfl
    · rfl

/-- C7, on the first call of the example, with the sentinel at the greatest
`int`. -/
theorem shouldRunPass_verbose_line_witness :
    (∃ v p', shouldRunPass 2147483647 "foo" "M1" (freshProcess 2 true) = .ok (v, p') ∧
      p'.OptBisector.LastBisectNum
        = preIncrement (freshProcess 2 true).OptBisector.LastBisectNum ∧
      (v = true → p'.errs = (freshProcess 2 true).errs ++ ("BISECT: running pass ("
        ++ toString p'.OptBisector.LastBisectNum ++ ") " ++ "foo" ++ " on "
        ++ "M1" ++ "\n")) ∧
      (v = false → p'.errs = (freshProcess 2 true).errs ++ ("BISECT: NOT running pass ("
        ++ toString p'.OptBisector.LastBisectNum ++ ") " ++ "foo" ++ " on "
        ++ "M1" ++ "\n"))) ∧
    ((2147483647 : Int) ≠ 2 →
      ∃ p', runPasses 2147483647 [("foo", "M1"), ("bar", "M2"), ("baz", "M3")]
          (freshProcess 2 true) = .ok ([true, true, false], p') ∧
        p'.errs = "BISECT: running pass (1) foo on M1\n"
          ++ "BISECT: running pass (2) bar on M2\n"
          ++ "BISECT: NOT running pass (3) baz on M3\n") :=
  shouldRunPass_verbose_line 2147483647 "foo" "M1" (freshProcess 2 true) rfl (by decide)

/-- C8: with the verbose option off, no call writes to the stream, whatever the
limit, the counter and the verdicts are: after a call or a run of calls, ended
by a failed assertion or not, the stream is what it was before; on an enabled
gate the run returns. -/
theorem runPasses_quiet (Disabled : Int) (cs : List (String × String)) (p : Process)
    (hverb : p.OptBisectVerbose = false) :
    (∀ r, runPasses Disabled cs p = .ok r → r.2.errs = p.errs) ∧
    (∀ e, runPasses Disabled cs p = .error e → e.errs = p.errs) ∧
    ((getGlobalPassGate p).isEnabled Disabled = true →
      ∃ vs p', runPasses Disabled cs p = .ok (vs, p') ∧ vs.length = cs.length ∧
        p'.errs = p.errs) ∧
    (∀ PassName IRDescription v p',
      shouldRunPass Disabled PassName IRDescription p = .ok (v, p') → p'.errs = p.errs) := by
  obtain ⟨hok, herr⟩ := runPasses_errs_of_quiet Disabled cs p hverb
  refine ⟨hok, herr, ?_, ?_⟩
  · intro hen
    obtain ⟨vs, p', hrun, hlen, -⟩ := runPasses_of_enabled Disabled cs p hen
    exact ⟨vs, p', hrun, hlen, hok _ hrun⟩
  · intro PassName IRDescription v p' hcall
    have h1 := (runPasses_errs_of_quiet Disabled [(PassName, IRDescription)] p hverb).1
      ([v], p')
    apply h1
    simp only [runPasses, hcall]

/-- C8, on the three calls of the example with limit 2. -/
theorem runPasses_quiet_witness :
    (∀ r, runPasses 2147483647 [("foo", "M1"), ("bar", "M2"), ("baz", "M3")]
      (freshProcess 2 false) = .ok r → r.2.errs = (freshProcess 2 false).errs) ∧
    (∀ e, runPasses 2147483647 [("foo", "M1"), ("bar", "M2"), ("baz", "M3")]
      (freshProcess 2 false) = .error e → e.errs = (freshProcess 2 false).errs) ∧
    ((getGlobalPassGate (freshProcess 2 false)).isEnabled 2147483647 = true →
      ∃ vs p', runPasses 2147483647 [("foo", "M1"), ("bar", "M2"), ("baz", "M3")]
          (freshProcess 2 false) = .ok (vs, p') ∧
        vs.length = ([("foo", "M1"), ("bar", "M2"), ("baz", "M3")] :
          List (String × String)).length ∧
        p'.errs = (freshProcess 2 false).errs) ∧
    (∀ PassName IRDescription v p',
      shouldRunPass 2147483647 PassName IRDescription (freshProcess 2 false) = .ok (v, p') →
        p'.errs = (freshProcess 2 false).errs) :=
  runPasses_quiet 2147483647 [("foo", "M1"), ("bar", "M2"), ("baz", "M3")]
    (freshProcess 2 false) rfl

/-- C9 (amended): a change of the limit after `m ≥ 1` enabled calls, with
`m < INT_MAX`, leaves the counter at `m`; the next enabled call observes
sequence number `m + 1` and is decided against the new limit; neither a change
of the limit nor a change of the verbose option modifies the counter. -/
theorem setLimit_keeps_counter (Disabled NewLimit : Int) (cs : List (String × String))
    (p : Process) (PassName IRDescription : String)
    (hfresh : p.OptBisector.LastBisectNum = 0)
    (hen : (getGlobalPassGate p).isEnabled Disabled = true)
    (hm : 1 ≤ cs.length) (hlen : (cs.length : Int) < INT_MAX)
    (hnew : NewLimit ≠ Disabled) :
    (∃ vs p1, runPasses Disabled cs p = .ok (vs, p1) ∧
      p1.OptBisector.LastBisectNum = cs.length ∧
      (setOptBisectLimit NewLimit p1).OptBisector.LastBisectNum = cs.length ∧
      ∃ v p2, shouldRunPass Disabled PassName IRDescription (setOptBisectLimit NewLimit p1)
          = .ok (v, p2) ∧
        p2.OptBisector.LastBisectNum = cs.length + 1 ∧
        (v = true ↔ NewLimit = -1 ∨ (cs.length : Int) + 1 ≤ NewLimit)) ∧
    (∀ (Limit : Int) (q : Process),
      (setOptBisectLimit Limit q).OptBisector.LastBisectNum = q.OptBisector.LastBisectNum) ∧
    (∀ (Limit : Int) (g : OptBisect), (g.setLimit Limit).LastBisectNum = g.LastBisectNum) ∧
    (∀ (Verbose : Bool) (q : Process),
      (setOptBisectVerbose Verbose q).OptBisector.LastBisectNum
        = q.OptBisector.LastBisectNum) := by
  unfold INT_MAX at hlen
  refine ⟨?_, fun _ _ => rfl, fun _ _ => rfl, fun _ _ => rfl⟩
  obtain ⟨vs, p1, hrun, -, -, -, hcnt, -⟩ := runPasses_of_enabled Disabled cs p hen
  have hc : p1.OptBisector.LastBisectNum = cs.length := by
    rw [hcnt, hfresh]
    split
    · next h0 => simp [h0]
    · simp only [wrapInt]
      omega
  have hen2 : (getOptBisector (setOptBisectLimit NewLimit p1)).isEnabled Disabled = true :=
    (isEnabled_iff Disabled _).2 hnew
  have hc2 : (setOptBisectLimit NewLimit p1).OptBisector.LastBisectNum = cs.length := hc
  have hinc : preIncrement (cs.length : Int) = cs.length + 1 := by
    simp only [preIncrement, wrapInt]
    omega
  refine ⟨vs, p1, hrun, hc, hc2, _, _,
    shouldRunPass_of_enabled Disabled PassName IRDescription _ hen2, ?_, ?_⟩
  · rw [stateAfterCall_LastBisectNum, hc2, hinc]
  · rw [hc2, hinc]
    show verdictAt NewLimit _ = true ↔ _
    simp [verdictAt]

/-- C9, with one call made before the limit goes from 2 to 1. -/
theorem setLimit_keeps_counter_witness :
    (∃ vs p1, runPasses 2147483647 [("foo", "M1")] (freshProcess 2 true) = .ok (vs, p1) ∧
      p1.OptBisector.LastBisectNum = ([("foo", "M1")] : List (String × String)).length ∧
      (setOptBisectLimit 1 p1).OptBisector.LastBisectNum
        = ([("foo", "M1")] : List (String × String)).length ∧
      ∃ v p2, shouldRunPass 2147483647 "bar" "M2" (setOptBisectLimit 1 p1)
          = .ok (v, p2) ∧
        p2.OptBisector.LastBisectNum
          = ([("foo", "M1")] : List (String × String)).length + 1 ∧
        (v = true ↔ (1 : Int) = -1 ∨
          (([("foo", "M1")] : List (String × String)).length : Int) + 1 ≤ 1)) ∧
    (∀ (Limit : Int) (q : Process),
      (setOptBisectLimit Limit q).OptBisector.LastBisectNum = q.OptBisector.LastBisectNum) ∧
    (∀ (Limit : Int) (g : OptBisect), (g.setLimit Limit).LastBisectNum = g.LastBisectNum) ∧
    (∀ (Verbose : Bool) (q : Process),
      (setOptBisectVerbose Verbose q).OptBisector.LastBisectNum
        = q.OptBisector.LastBisectNum) :=
  setLimit_keeps_counter 2147483647 1 [("foo", "M1")] (freshProcess 2 true) "bar" "M2"
    rfl (by decide) (by decide) (by decide) (by decide)

/-- C9 fails as stated: after 2147483647 calls on a fresh gate with limit `-1`
and a change of the limit to `5`, the next call observes `-2147483648` and is
allowed, although `2147483647 + 1 ≤ 5` is false. -/
theorem setLimit_then_counter_wraps :
    ∃ vs p1 p2, runPasses 2147483647 (List.replicate 2147483647 ("", ""))
        (freshProcess (-1) false) = .ok (vs, p1) ∧
      shouldRunPass 2147483647 "" "" (setOptBisectLimit 5 p1) = .ok (true, p2) ∧
      p2.OptBisector.LastBisectNum = -2147483648 ∧
      ¬ ((5 : Int) = -1 ∨ (2147483647 : Int) + 1 ≤ 5) := by
  obtain ⟨vs, p1, hrun, -, -, -, hcnt, -⟩ :=
    runPasses_of_enabled 2147483647 (List.replicate 2147483647 ("", ""))
      (freshProcess (-1) false) (by decide)
  rw [List.length_replicate] at hcnt
  have hc : p1.OptBisector.LastBisectNum = 2147483647 := by
    rw [hcnt]
    decide
  have hc2 : (setOptBisectLimit 5 p1).OptBisector.LastBisectNum = 2147483647 := hc
  have hen2 : (getOptBisector (setOptBisectLimit 5 p1)).isEnabled 2147483647 = true :=
    (isEnabled_iff 2147483647 _).2 (by show (5 : Int) ≠ 2147483647; decide)
  have hcall := shouldRunPass_of_enabled 2147483647 "" "" _ hen2
  rw [hc2] at hcall
  refine ⟨vs, p1, _, hrun, hcall, ?_, by decide⟩
  rw [stateAfterCall_LastBisectNum, hc2]
  decide

/-- C10: an occurrence of the limit option with value `Limit` sets the limit of
the gate that `getGlobalPassGate()` returns to `Limit` at once: right after it
the global gate is enabled exactly when `Limit` is not the sentinel, and the
next call on it is decided against `Limit`; `getGlobalPassGate()` is the gate of
`getOptBisector()` in every state, so the call's increment is seen through it. -/
theorem setOptBisectLimit_applies (Disabled Limit : Int) (PassName IRDescription : String)
    (p : Process) :
    (getGlobalPassGate (setOptBisectLimit Limit p)).BisectLimit = Limit ∧
    (setOptBisectLimit Limit p).OptBisectLimit = Limit ∧
    ((getGlobalPassGate (setOptBisectLimit Limit p)).isEnabled Disabled = true ↔
      Limit ≠ Disabled) ∧
    (Limit ≠ Disabled →
      ∃ v p', shouldRunPass Disabled PassName IRDescription (setOptBisectLimit Limit p)
          = .ok (v, p') ∧
        (v = true ↔ Limit = -1 ∨ (getGlobalPassGate p').LastBisectNum ≤ Limit) ∧
        (getGlobalPassGate p').LastBisectNum
          = preIncrement (getGlobalPassGate p).LastBisectNum ∧
        (getGlobalPassGate p').BisectLimit = Limit) ∧
    (Limit = Disabled →
      shouldRunPass Disabled PassName IRDescription (setOptBisectLimit Limit p)
        = .error (setOptBisectLimit Limit p)) ∧
    (∀ q : Process, getGlobalPassGate q = getOptBisector q ∧
      getGlobalPassGate q = q.OptBisector) := by
  have hiff := isEnabled_iff Disabled (getOptBisector (setOptBisectLimit Limit p))
  refine ⟨rfl, rfl, hiff, ?_, ?_, fun _ => ⟨rfl, rfl⟩⟩
  · intro hne
    refine ⟨_, _, shouldRunPass_of_enabled Disabled PassName IRDescription _ (hiff.2 hne),
      ?_, rfl, rfl⟩
    show verdictAt Limit _ = true ↔ _
    simp only [verdictAt, Bool.or_eq_true, beq_iff_eq, decide_eq_true_eq]
    rfl
  · intro heq
    apply shouldRunPass_of_disabled
    cases h : (getOptBisector (setOptBisectLimit Limit p)).isEnabled Disabled with
    | false => rfl
    | true => exact absurd heq (hiff.1 h)

/-- C11: with no option supplied, the standard build leaves the gate with limit
`Disabled` and the verbose option on, so the global gate is not enabled; the
origin-tracking build leaves the gate with limit `-1` and the verbose option
off, so the global gate is enabled, every call of a run is allowed, the counter
counts the calls and nothing is written. -/
theorem initialProcess_defaults (Disabled : Int) (hD : Disabled ≠ -1)
    (cs : List (String × String)) :
    ((getGlobalPassGate (initialProcess Disabled false)).BisectLimit = Disabled ∧
      (initialProcess Disabled false).OptBisectLimit = Disabled ∧
      (initialProcess Disabled false).OptBisectVerbose = true ∧
      (getGlobalPassGate (initialProcess Disabled false)).isEnabled Disabled = false) ∧
    ((getGlobalPassGate (initialProcess Disabled true)).BisectLimit = -1 ∧
      (initialProcess Disabled true).OptBisectLimit = -1 ∧
      (initialProcess Disabled true).OptBisectVerbose = false ∧
      (getGlobalPassGate (initialProcess Disabled true)).isEnabled Disabled = true ∧
      ∃ vs p', runPasses Disabled cs (initialProcess Disabled true) = .ok (vs, p') ∧
        vs = List.replicate cs.length true ∧
        p'.errs = "" ∧
        ((cs.length : Int) ≤ INT_MAX → p'.OptBisector.LastBisectNum = cs.length)) := by
  have hen : (getOptBisector (initialProcess Disabled true)).isEnabled Disabled = true :=
    (isEnabled_iff Disabled _).2 (fun h => hD h.symm)
  refine ⟨⟨rfl, rfl, rfl, ?_⟩, rfl, rfl, rfl, hen, ?_⟩
  · simp [getGlobalPassGate, getOptBisector, initialProcess, DefaultLimit,
      OptBisect.isEnabled]
  · obtain ⟨vs, p', hrun, hvlen, -, -, hcnt, hvs⟩ :=
      runPasses_of_enabled Disabled cs (initialProcess Disabled true) hen
    refine ⟨vs, p', hrun, ?_, ?_, ?_⟩
    · apply List.ext_getElem
      · rw [hvlen, List.length_replicate]
      · intro i h1 h2
        rw [hvs i h1, List.getElem_replicate]
        rfl
    · exact (runPasses_errs_of_quiet Disabled cs (initialProcess Disabled true) rfl).1 _ hrun
    · intro hlen
      unfold INT_MAX at hlen
      rw [hcnt]
      show (if cs.length = 0 then (0 : Int) else wrapInt (0 + cs.length)) = cs.length
      split
      · next h0 => simp [h0]
      · simp only [wrapInt]
        omega

/-- C11, with the sentinel at the greatest `int`, on two calls. -/
theorem initialProcess_defaults_witness :
    ((getGlobalPassGate (initialProcess 2147483647 false)).BisectLimit = 2147483647 ∧
      (initialProcess 2147483647 false).OptBisectLimit = 2147483647 ∧
      (initialProcess 2147483647 false).OptBisectVerbose = true ∧
      (getGlobalPassGate (initialProcess 2147483647 false)).isEnabled 2147483647 = false) ∧
    ((getGlobalPassGate (initialProcess 2147483647 true)).BisectLimit = -1 ∧
      (initialProcess 2147483647 true).OptBisectLimit = -1 ∧
      (initialProcess 2147483647 true).OptBisectVerbose = false ∧
      (getGlobalPassGate (initialProcess 2147483647 true)).isEnabled 2147483647 = true ∧
      ∃ vs p', runPasses 2147483647 [("foo", "M1"), ("bar", "M2")]
          (initialProcess 2147483647 true) = .ok (vs, p') ∧
        vs = List.replicate ([("foo", "M1"), ("bar", "M2")] :
          List (String × String)).length true ∧
        p'.errs = "" ∧
        ((([("foo", "M1"), ("bar", "M2")] : List (String × String)).length : Int) ≤ INT_MAX →
          p'.OptBisector.LastBisectNum
            = ([("foo", "M1"), ("bar", "M2")] : List (String × String)).length)) :=
  initialProcess_defaults 2147483647 (by decide) [("foo", "M1"), ("bar", "M2")]

/-- C12 (amended): with the limit set to `0`, `0` not being the sentinel, the
gate is enabled and every call of a run of at most `INT_MAX` calls returns
false and increments the counter by one. -/
theorem zero_limit_suppresses (Disabled : Int) (hD : Disabled ≠ 0)
    (cs : List (String × String)) (p : Process)
    (hfresh : p.OptBisector.LastBisectNum = 0)
    (hlen : (cs.length : Int) ≤ INT_MAX) :
    (getGlobalPassGate (setOptBisectLimit 0 p)).isEnabled Disabled = true ∧
    (∃ vs p', runPasses Disabled cs (setOptBisectLimit 0 p) = .ok (vs, p') ∧
      vs = List.replicate cs.length false ∧
      p'.OptBisector.LastBisectNum = cs.length) ∧
    (∀ (PassName IRDescription : String) (q : Process),
      q.OptBisector.BisectLimit = 0 → 0 ≤ q.OptBisector.LastBisectNum →
      q.OptBisector.LastBisectNum < INT_MAX →
      ∃ q', shouldRunPass Disabled PassName IRDescription q = .ok (false, q') ∧
        q'.OptBisector.LastBisectNum = q.OptBisector.LastBisectNum + 1) := by
  have hen : (getOptBisector (setOptBisectLimit 0 p)).isEnabled Disabled = true :=
    (isEnabled_iff Disabled _).2 (fun h => hD h.symm)
  refine ⟨hen, ?_, ?_⟩
  · obtain ⟨vs, p', hrun, hvlen, -, -, hcnt, hvs⟩ :=
      runPasses_fresh Disabled cs (setOptBisectLimit 0 p) hfresh hen hlen
    refine ⟨vs, p', hrun, ?_, hcnt⟩
    apply List.ext_getElem
    · rw [hvlen, List.length_replicate]
    · intro i h1 h2
      rw [hvs i h1, List.getElem_replicate]
      show verdictAt 0 _ = false
      have : ¬ ((i : Int) + 1 ≤ 0) := by omega
      simp [verdictAt, this]
  · intro PassName IRDescription q hlim h0 h1
    have hq : (getOptBisector q).isEnabled Disabled = true :=
      (isEnabled_iff Disabled _).2 (by
        show q.OptBisector.BisectLimit ≠ Disabled
        rw [hlim]
        exact fun h => hD h.symm)
    have hinc := preIncrement_of_lt q.OptBisector.LastBisectNum
      (by unfold INT_MIN; omega) h1
    have hv : verdictAt q.OptBisector.BisectLimit
        (preIncrement q.OptBisector.LastBisectNum) = false := by
      rw [hlim, hinc]
      have : ¬ (q.OptBisector.LastBisectNum + 1 ≤ 0) := by omega
      simp [verdictAt, this]
    rw [shouldRunPass_of_enabled Disabled PassName IRDescription q hq, hv]
    exact ⟨_, rfl, hinc⟩

/-- C12, with the sentinel at the greatest `int`, on two calls. -/
theorem zero_limit_suppresses_witness :
    (getGlobalPassGate (setOptBisectLimit 0 (initialProcess 2147483647 false))).isEnabled
      2147483647 = true ∧
    (∃ vs p', runPasses 2147483647 [("foo", "M1"), ("bar", "M2")]
        (setOptBisectLimit 0 (initialProcess 2147483647 false)) = .ok (vs, p') ∧
      vs = List.replicate ([("foo", "M1"), ("bar", "M2")] :
        List (String × String)).length false ∧
      p'.OptBisector.LastBisectNum
        = ([("foo", "M1"), ("bar", "M2")] : List (String × String)).length) ∧
    (∀ (PassName IRDescription : String) (q : Process),
      q.OptBisector.BisectLimit = 0 → 0 ≤ q.OptBisector.LastBisectNum →
      q.OptBisector.LastBisectNum < INT_MAX →
      ∃ q', shouldRunPass 2147483647 PassName IRDescription q = .ok (false, q') ∧
        q'.OptBisector.LastBisectNum = q.OptBisector.LastBisectNum + 1) :=
  zero_limit_suppresses 2147483647 (by decide) [("foo", "M1"), ("bar", "M2")]
    (initialProcess 2147483647 false) rfl (by decide)

/-- C12 fails as stated: with the limit set to `0` at startup, the last of
2147483648 calls has sequence number `-2147483648` and returns true. -/
theorem zero_limit_allows_after_wrap :
    ∃ vs p', runPasses 2147483647 (List.replicate 2147483648 ("", ""))
        (setOptBisectLimit 0 (initialProcess 2147483647 false)) = .ok (vs, p') ∧
      vs[2147483647]? = some true ∧
      p'.OptBisector.LastBisectNum = -2147483648 := by
  obtain ⟨vs, p', hrun, hvlen, -, -, hcnt, hvs⟩ :=
    runPasses_of_enabled 2147483647 (List.replicate 2147483648 ("", ""))
      (setOptBisectLimit 0 (initialProcess 2147483647 false)) (by decide)
  rw [List.length_replicate] at hvlen hcnt
  have h1 : 2147483647 < vs.length := by omega
  refine ⟨vs, p', hrun, ?_, ?_⟩
  · rw [List.getElem?_eq_getElem h1, hvs 2147483647 h1]
    decide
  · rw [hcnt]
    decide

/-- C13: the verdict is monotone in the limit.  For non-negative limits
`K ≤ K'` and two gates with the same counter, a call allowed under `K` is
allowed under `K'`, and it is allowed under the Unlimited limit `-1`; over a
run of calls, the calls allowed under `K` are among those allowed under `K'`
and under `-1`. -/
theorem verdict_monotone_in_limit (Disabled K K' : Int) (hD : Disabled ≠ -1)
    (cs : List (String × String)) (PassName IRDescription : String) (p q u : Process)
    (hK : 0 ≤ K) (hKK : K ≤ K')
    (hp : p.OptBisector.BisectLimit = K) (hq : q.OptBisector.BisectLimit = K')
    (hu : u.OptBisector.BisectLimit = -1)
    (hpe : (getGlobalPassGate p).isEnabled Disabled = true)
    (hqe : (getGlobalPassGate q).isEnabled Disabled = true)
    (hpq : p.OptBisector.LastBisectNum = q.OptBisector.LastBisectNum)
    (hpu : p.OptBisector.LastBisectNum = u.OptBisector.LastBisectNum) :
    (∃ v w x p' q' u', shouldRunPass Disabled PassName IRDescription p = .ok (v, p') ∧
      shouldRunPass Disabled PassName IRDescription q = .ok (w, q') ∧
      shouldRunPass Disabled PassName IRDescription u = .ok (x, u') ∧
      p'.OptBisector.LastBisectNum = q'.OptBisector.LastBisectNum ∧
      p'.OptBisector.LastBisectNum = u'.OptBisector.LastBisectNum ∧
      (v = true → w = true) ∧ (v = true → x = true) ∧ (w = true → x = true)) ∧
    (∃ vs ws xs p' q' u', runPasses Disabled cs p = .ok (vs, p') ∧
      runPasses Disabled cs q = .ok (ws, q') ∧
      runPasses Disabled cs u = .ok (xs, u') ∧
      vs.length = cs.length ∧ ws.length = cs.length ∧ xs.length = cs.length ∧
      ∀ (i : Nat) (h1 : i < vs.length) (h2 : i < ws.length) (h3 : i < xs.length),
        (vs[i] = true → ws[i] = true) ∧ (vs[i] = true → xs[i] = true) ∧
        (ws[i] = true → xs[i] = true)) := by
  have hue : (getOptBisector u).isEnabled Disabled = true :=
    (isEnabled_iff Disabled _).2 (by
      show u.OptBisector.BisectLimit ≠ Disabled
      rw [hu]
      exact fun h => hD h.symm)
  have hmono : ∀ n : Int, verdictAt K n = true → verdictAt K' n = true := by
    intro n h
    have hne : K ≠ -1 := by omega
    have hne' : K' ≠ -1 := by omega
    simp only [verdictAt, Bool.or_eq_true, beq_iff_eq, decide_eq_true_eq, hne, hne',
      false_or] at h ⊢
    omega
  have htop : ∀ n : Int, verdictAt (-1) n = true := by
    intro n
    simp [verdictAt]
  constructor
  · refine ⟨_, _, _, _, _, _,
      shouldRunPass_of_enabled Disabled PassName IRDescription p hpe,
      shouldRunPass_of_enabled Disabled PassName IRDescription q hqe,
      shouldRunPass_of_enabled Disabled PassName IRDescription u hue, ?_, ?_, ?_, ?_, ?_⟩
    · rw [stateAfterCall_LastBisectNum, stateAfterCall_LastBisectNum, hpq]
    · rw [stateAfterCall_LastBisectNum, stateAfterCall_LastBisectNum, hpu]
    · rw [hp, hq, ← hpq]
      exact hmono _
    · intro _
      rw [hu]
      exact htop _
    · intro _
      rw [hu]
      exact htop _
  · obtain ⟨vs, p', hrp, hlp, -, -, -, hvs⟩ := runPasses_of_enabled Disabled cs p hpe
    obtain ⟨ws, q', hrq, hlq, -, -, -, hws⟩ := runPasses_of_enabled Disabled cs q hqe
    obtain ⟨xs, u', hru, hlu, -, -, -, hxs⟩ := runPasses_of_enabled Disabled cs u hue
    refine ⟨vs, ws, xs, p', q', u', hrp, hrq, hru, hlp, hlq, hlu, ?_⟩
    intro i h1 h2 h3
    rw [hvs i h1, hws i h2, hxs i h3, hp, hq, hu, ← hpq]
    exact ⟨hmono _, fun _ => htop _, fun _ => htop _⟩

/-- C13, with limits 1, 2 and `-1` on three calls. -/
theorem verdict_monotone_in_limit_witness :
    (∃ v w x p' q' u', shouldRunPass 2147483647 "foo" "M1" (freshProcess 1 true)
        = .ok (v, p') ∧
      shouldRunPass 2147483647 "foo" "M1" (freshProcess 2 false) = .ok (w, q') ∧
      shouldRunPass 2147483647 "foo" "M1" (freshProcess (-1) false) = .ok (x, u') ∧
      p'.OptBisector.LastBisectNum = q'.OptBisector.LastBisectNum ∧
      p'.OptBisector.LastBisectNum = u'.OptBisector.LastBisectNum ∧
      (v = true → w = true) ∧ (v = true → x = true) ∧ (w = true → x = true)) ∧
    (∃ vs ws xs p' q' u',
      runPasses 2147483647 [("foo", "M1"), ("bar", "M2"), ("baz", "M3")]
        (freshProcess 1 true) = .ok (vs, p') ∧
      runPasses 2147483647 [("foo", "M1"), ("bar", "M2"), ("baz", "M3")]
        (freshProcess 2 false) = .ok (ws, q') ∧
      runPasses 2147483647 [("foo", "M1"), ("bar", "M2"), ("baz", "M3")]
        (freshProcess (-1) false) = .ok (xs, u') ∧
      vs.length = ([("foo", "M1"), ("bar", "M2"), ("baz", "M3")] :
        List (String × String)).length ∧
      ws.length = ([("foo", "M1"), ("bar", "M2"), ("baz", "M3")] :
        List (String × String)).length ∧
      xs.length = ([("foo", "M1"), ("bar", "M2"), ("baz", "M3")] :
        List (String × String)).length ∧
      ∀ (i : Nat) (h1 : i < vs.length) (h2 : i < ws.length) (h3 : i < xs.length),
        (vs[i] = true → ws[i] = true) ∧ (vs[i] = true → xs[i] = true) ∧
        (ws[i] = true → xs[i] = true)) :=
  verdict_monotone_in_limit 2147483647 1 2 (by decide)
    [("foo", "M1"), ("bar", "M2"), ("baz", "M3")] "foo" "M1"
    (freshProcess 1 true) (freshProcess 2 false) (freshProcess (-1) false)
    (by decide) (by decide) rfl rfl rfl (by decide) (by decide) rfl rfl

/-- C14: a limit `L < -1` that is not the sentinel leaves the gate enabled, and
every call whose sequence number is at least 1 returns false, as under the
limit `0` and unlike under the Unlimited limit `-1`. -/
theorem negative_limit_suppresses (Disabled L : Int) (hL : L < -1) (hLD : L ≠ Disabled)
    (PassName IRDescription : String) (p : Process)
    (hlim : p.OptBisector.BisectLimit = L) :
    (getGlobalPassGate p).isEnabled Disabled = true ∧
    ∃ v p', shouldRunPass Disabled PassName IRDescription p = .ok (v, p') ∧
      p'.OptBisector.LastBisectNum = preIncrement p.OptBisector.LastBisectNum ∧
      (1 ≤ p'.OptBisector.LastBisectNum → v = false) ∧
      (1 ≤ p'.OptBisector.LastBisectNum →
        v = (decide (p'.OptBisector.LastBisectNum ≤ 0))) ∧
      (v = true ↔ p'.OptBisector.LastBisectNum ≤ L) := by
  have hen : (getOptBisector p).isEnabled Disabled = true :=
    (isEnabled_iff Disabled _).2 (by
      show p.OptBisector.BisectLimit ≠ Disabled
      rw [hlim]
      exact hLD)
  have hne : L ≠ -1 := by omega
  refine ⟨hen, _, _, shouldRunPass_of_enabled Disabled PassName IRDescription p hen, rfl,
    ?_, ?_, ?_⟩
  · intro h
    rw [stateAfterCall_LastBisectNum] at h
    have : ¬ (preIncrement p.OptBisector.LastBisectNum ≤ L) := by omega
    simp [verdictAt, hlim, hne, this]
  · intro h
    rw [stateAfterCall_LastBisectNum] at h ⊢
    have h1 : ¬ (preIncrement p.OptBisector.LastBisectNum ≤ L) := by omega
    have h2 : ¬ (preIncrement p.OptBisector.LastBisectNum ≤ 0) := by omega
    simp [verdictAt, hlim, hne, h1, h2]
  · rw [stateAfterCall_LastBisectNum]
    simp [verdictAt, hlim, hne]

/-- C14, at limit `-5` on a fresh gate. -/
theorem negative_limit_suppresses_witness :
    (getGlobalPassGate (freshProcess (-5) true)).isEnabled 2147483647 = true ∧
    ∃ v p', shouldRunPass 2147483647 "foo" "M1" (freshProcess (-5) true) = .ok (v, p') ∧
      p'.OptBisector.LastBisectNum
        = preIncrement (freshProcess (-5) true).OptBisector.LastBisectNum ∧
      (1 ≤ p'.OptBisector.LastBisectNum → v = false) ∧
      (1 ≤ p'.OptBisector.LastBisectNum →
        v = (decide (p'.OptBisector.LastBisectNum ≤ 0))) ∧
      (v = true ↔ p'.OptBisector.LastBisectNum ≤ -5) :=
  negative_limit_suppresses 2147483647 (-5) (by decide) (by decide) "foo" "M1"
    (freshProcess (-5) true) rfl

/-- C15: the verdict of a call and the counter it leaves depend only on the
counter and the limit before the call: two calls from states that agree on
both have the same verdict and leave the same counter, or both fail, whatever
their pass names, IR descriptions and verbose settings are. -/
theorem verdict_depends_on_counter_and_limit (Disabled : Int)
    (PassName IRDescription PassName2 IRDescription2 : String) (p q : Process)
    (hc : p.OptBisector.LastBisectNum = q.OptBisector.LastBisectNum)
    (hl : p.OptBisector.BisectLimit = q.OptBisector.BisectLimit) :
    verdictAndCounter (shouldRunPass Disabled PassName IRDescription p)
      = verdictAndCounter (shouldRunPass Disabled PassName2 IRDescription2 q) ∧
    ((getGlobalPassGate p).isEnabled Disabled = true →
      ∃ v p' q', shouldRunPass Disabled PassName IRDescription p = .ok (v, p') ∧
        shouldRunPass Disabled PassName2 IRDescription2 q = .ok (v, q') ∧
        p'.OptBisector.LastBisectNum = q'.OptBisector.LastBisectNum) := by
  have hpq : (getOptBisector q).isEnabled Disabled = (getOptBisector p).isEnabled Disabled := by
    show (q.OptBisector.BisectLimit != Disabled) = (p.OptBisector.BisectLimit != Disabled)
    rw [hl]
  constructor
  · cases hen : (getOptBisector p).isEnabled Disabled with
    | false =>
      rw [shouldRunPass_of_disabled Disabled PassName IRDescription p hen,
        shouldRunPass_of_disabled Disabled PassName2 IRDescription2 q (hpq.trans hen)]
      rfl
    | true =>
      rw [shouldRunPass_of_enabled Disabled PassName IRDescription p hen,
        shouldRunPass_of_enabled Disabled PassName2 IRDescription2 q (hpq.trans hen)]
      simp only [verdictAndCounter, stateAfterCall_LastBisectNum, hc, hl]
  · intro hen
    refine ⟨_, _, stateAfterCall PassName2 IRDescription2 q,
      shouldRunPass_of_enabled Disabled PassName IRDescription p hen, ?_, ?_⟩
    · rw [shouldRunPass_of_enabled Disabled PassName2 IRDescription2 q (hpq.trans hen),
        hc, hl]
    · rw [stateAfterCall_LastBisectNum, stateAfterCall_LastBisectNum, hc]

/-- C15, on two calls that differ in pass name, IR description, verbose setting
and stream. -/
theorem verdict_depends_on_counter_and_limit_witness :
    verdictAndCounter (shouldRunPass 2147483647 "foo" "M1" ⟨⟨2, 2⟩, 2, true, ""⟩)
      = verdictAndCounter (shouldRunPass 2147483647 "bar" "M2" ⟨⟨2, 2⟩, 7, false, "x"⟩) ∧
    ((getGlobalPassGate ⟨⟨2, 2⟩, 2, true, ""⟩).isEnabled 2147483647 = true →
      ∃ v p' q', shouldRunPass 2147483647 "foo" "M1" ⟨⟨2, 2⟩, 2, true, ""⟩ = .ok (v, p') ∧
        shouldRunPass 2147483647 "bar" "M2" ⟨⟨2, 2⟩, 7, false, "x"⟩ = .ok (v, q') ∧
        p'.OptBisector.LastBisectNum = q'.OptBisector.LastBisectNum) :=
  verdict_depends_on_counter_and_limit 2147483647 "foo" "M1" "bar" "M2"
    ⟨⟨2, 2⟩, 2, true, ""⟩ ⟨⟨2, 2⟩, 7, false, "x"⟩ rfl rfl

/-- C16: the counter being a 32-bit `int`, the increment of a call does not
overflow while the counter is below `INT_MAX`.  After `m < INT_MAX` calls from a
fresh, enabled gate the next call has sequence number exactly `m + 1`, within
the range of `int`; with a non-negative limit `K`, no call of these `m + 1` is
allowed after a suppressed one. -/
theorem preIncrement_no_overflow (Disabled K : Int) (cs : List (String × String))
    (PassName IRDescription : String) (p : Process)
    (hK : 0 ≤ K) (hlim : p.OptBisector.BisectLimit = K)
    (hfresh : p.OptBisector.LastBisectNum = 0)
    (hen : (getGlobalPassGate p).isEnabled Disabled = true)
    (hlen : (cs.length : Int) < INT_MAX) :
    (∀ c : Int, INT_MIN ≤ c → c < INT_MAX →
      preIncrement c = c + 1 ∧ INT_MIN ≤ preIncrement c ∧ preIncrement c ≤ INT_MAX) ∧
    ∃ vs q v q', runPasses Disabled cs p = .ok (vs, q) ∧
      q.OptBisector.LastBisectNum = cs.length ∧
      shouldRunPass Disabled PassName IRDescription q = .ok (v, q') ∧
      q'.OptBisector.LastBisectNum = cs.length + 1 ∧
      q'.OptBisector.LastBisectNum = q.OptBisector.LastBisectNum + 1 ∧
      q'.OptBisector.LastBisectNum ≤ INT_MAX ∧
      (v = true ↔ (cs.length : Int) + 1 ≤ K) ∧
      ∃ ws, ws = vs ++ [v] ∧
        runPasses Disabled (cs ++ [(PassName, IRDescription)]) p = .ok (ws, q') ∧
        ∀ (i j : Nat), i ≤ j → j < ws.length →
          ws[i]? = some false → ws[j]? = some false := by
  have hne : K ≠ -1 := by omega
  constructor
  · intro c h1 h2
    have h := preIncrement_of_lt c h1 h2
    rw [h]
    unfold INT_MIN at h1 ⊢
    unfold INT_MAX at h2 ⊢
    omega
  · obtain ⟨vs, q, hrun, hvlen, hql, -, hqc, -⟩ :=
      runPasses_fresh Disabled cs p hfresh hen (le_of_lt hlen)
    have hq : (getOptBisector q).isEnabled Disabled = true := by
      rw [isEnabled_iff] at hen ⊢
      show q.OptBisector.BisectLimit ≠ Disabled
      rw [hql]
      exact hen
    have hcall := shouldRunPass_of_enabled Disabled PassName IRDescription q hq
    have hinc : preIncrement q.OptBisector.LastBisectNum = (cs.length : Int) + 1 := by
      rw [hqc]
      exact preIncrement_of_lt _ (by unfold INT_MIN; omega) hlen
    have hfull : runPasses Disabled (cs ++ [(PassName, IRDescription)]) p
        = .ok (vs ++ [verdictAt q.OptBisector.BisectLimit
            (preIncrement q.OptBisector.LastBisectNum)],
          stateAfterCall PassName IRDescription q) := by
      rw [runPasses_append, hrun]
      simp only [runPasses, Except.bind, hcall, Except.map]
    have hlen2 : (((cs ++ [(PassName, IRDescription)]).length : Nat) : Int) ≤ INT_MAX := by
      rw [List.length_append, List.length_singleton]
      unfold INT_MAX at hlen ⊢
      push_cast
      omega
    obtain ⟨ws, r, hrun2, -, -, -, -, hws⟩ :=
      runPasses_fresh Disabled (cs ++ [(PassName, IRDescription)]) p hfresh hen hlen2
    rw [hfull] at hrun2
    have hwe : vs ++ [verdictAt q.OptBisector.BisectLimit
        (preIncrement q.OptBisector.LastBisectNum)] = ws := by
      injection hrun2 with h
      exact congrArg Prod.fst h
    refine ⟨vs, q, _, _, hrun, hqc, hcall, ?_, ?_, ?_, ?_, ws, hwe.symm, hwe ▸ hfull, ?_⟩
    · rw [stateAfterCall_LastBisectNum, hinc]
    · rw [stateAfterCall_LastBisectNum, hinc, hqc]
    · rw [stateAfterCall_LastBisectNum, hinc]
      exact hlen
    · rw [hinc, hql, hlim]
      simp [verdictAt, hne]
    · intro i j hij hj hi
      have hi' : i < ws.length := lt_of_le_of_lt hij hj
      rw [List.getElem?_eq_getElem hi', hws i hi', hlim] at hi
      rw [List.getElem?_eq_getElem hj, hws j hj, hlim]
      simp only [verdictAt, Option.some.injEq, Bool.or_eq_false_iff, beq_eq_false_iff_ne,
        ne_eq, decide_eq_false_iff_not] at hi ⊢
      refine ⟨hi.1, ?_⟩
      have := hi.2
      omega

/-- C16, with limit 1 after one call. -/
theorem preIncrement_no_overflow_witness :
    (∀ c : Int, INT_MIN ≤ c → c < INT_MAX →
      preIncrement c = c + 1 ∧ INT_MIN ≤ preIncrement c ∧ preIncrement c ≤ INT_MAX) ∧
    ∃ vs q v q', runPasses 2147483647 [("foo", "M1")] (freshProcess 1 true) = .ok (vs, q) ∧
      q.OptBisector.LastBisectNum = ([("foo", "M1")] : List (String × String)).length ∧
      shouldRunPass 2147483647 "bar" "M2" q = .ok (v, q') ∧
      q'.OptBisector.LastBisectNum
        = ([("foo", "M1")] : List (String × String)).length + 1 ∧
      q'.OptBisector.LastBisectNum = q.OptBisector.LastBisectNum + 1 ∧
      q'.OptBisector.LastBisectNum ≤ INT_MAX ∧
      (v = true ↔ (([("foo", "M1")] : List (String × String)).length : Int) + 1 ≤ 1) ∧
      ∃ ws, ws = vs ++ [v] ∧
        runPasses 2147483647 ([("foo", "M1")] ++ [("bar", "M2")]) (freshProcess 1 true)
          = .ok (ws, q') ∧
        ∀ (i j : Nat), i ≤ j → j < ws.length →
          ws[i]? = some false → ws[j]? = some false :=
  preIncrement_no_overflow 2147483647 1 [("foo", "M1")] "bar" "M2" (freshProcess 1 true)
    (by decide) rfl rfl (by decide) (by decide)

/-- C17: an enabled call changes the counter and nothing else of the gate
state: the limit, the verbose option and the limit option are what they were,
so the gate is still enabled; across a run of calls the gate stays enabled
with the same limit, and every call of the run is decided against it. -/
theorem shouldRunPass_frame (Disabled : Int) (cs : List (String × String))
    (PassName IRDescription : String) (p : Process)
    (hen : (getGlobalPassGate p).isEnabled Disabled = true) :
    (∃ v p', shouldRunPass Disabled PassName IRDescription p = .ok (v, p') ∧
      p'.OptBisector.BisectLimit = p.OptBisector.BisectLimit ∧
      p'.OptBisectVerbose = p.OptBisectVerbose ∧
      p'.OptBisectLimit = p.OptBisectLimit ∧
      p'.OptBisector = { p.OptBisector with
        LastBisectNum := preIncrement p.OptBisector.LastBisectNum } ∧
      (getGlobalPassGate p').isEnabled Disabled = true) ∧
    (∃ vs p', runPasses Disabled cs p = .ok (vs, p') ∧
      vs.length = cs.length ∧
      p'.OptBisector.BisectLimit = p.OptBisector.BisectLimit ∧
      p'.OptBisectVerbose = p.OptBisectVerbose ∧
      (getGlobalPassGate p').isEnabled Disabled = true) ∧
    (∀ (n : Nat) (hn : n < cs.length),
      ∃ vs q v q', runPasses Disabled (cs.take n) p = .ok (vs, q) ∧
        q.OptBisector.BisectLimit = p.OptBisector.BisectLimit ∧
        q.OptBisectVerbose = p.OptBisectVerbose ∧
        (getGlobalPassGate q).isEnabled Disabled = true ∧
        shouldRunPass Disabled cs[n].1 cs[n].2 q = .ok (v, q') ∧
        (v = true ↔ p.OptBisector.BisectLimit = -1 ∨
          q'.OptBisector.LastBisectNum ≤ p.OptBisector.BisectLimit) ∧
        runPasses Disabled (cs.take (n + 1)) p = .ok (vs ++ [v], q')) := by
  have hkeep : ∀ q : Process, q.OptBisector.BisectLimit = p.OptBisector.BisectLimit →
      (getOptBisector q).isEnabled Disabled = true := by
    intro q hq
    rw [isEnabled_iff] at hen ⊢
    show q.OptBisector.BisectLimit ≠ Disabled
    rw [hq]
    exact hen
  refine ⟨⟨_, _, shouldRunPass_of_enabled Disabled PassName IRDescription p hen,
    rfl, rfl, rfl, rfl, hen⟩, ?_, ?_⟩
  · obtain ⟨vs, p', hrun, hvlen, hlim, hverb, -, -⟩ :=
      runPasses_of_enabled Disabled cs p hen
    exact ⟨vs, p', hrun, hvlen, hlim, hverb, hkeep p' hlim⟩
  · intro n hn
    obtain ⟨vs, q, hrun, -, hlim, hverb, -, -⟩ :=
      runPasses_of_enabled Disabled (cs.take n) p hen
    have hq := hkeep q hlim
    have hcall := shouldRunPass_of_enabled Disabled cs[n].1 cs[n].2 q hq
    refine ⟨vs, q, _, _, hrun, hlim, hverb, hq, hcall, ?_, ?_⟩
    · rw [stateAfterCall_LastBisectNum, hlim]
      simp [verdictAt]
    · rw [← List.take_concat_get cs n hn, List.concat_eq_append,
        runPasses_append, hrun]
      simp only [runPasses, Except.bind, hcall, Except.map]

/-- C17, with limit 2 on the three calls of the specification's example. -/
theorem shouldRunPass_frame_witness :
    (∃ v p', shouldRunPass 2147483647 "foo" "M1" (freshProcess 2 true) = .ok (v, p') ∧
      p'.OptBisector.BisectLimit = (freshProcess 2 true).OptBisector.BisectLimit ∧
      p'.OptBisectVerbose = (freshProcess 2 true).OptBisectVerbose ∧
      p'.OptBisectLimit = (freshProcess 2 true).OptBisectLimit ∧
      p'.OptBisector = { (freshProcess 2 true).OptBisector with
        LastBisectNum := preIncrement (freshProcess 2 true).OptBisector.LastBisectNum } ∧
      (getGlobalPassGate p').isEnabled 2147483647 = true) ∧
    (∃ vs p', runPasses 2147483647 [("foo", "M1"), ("bar", "M2"), ("baz", "M3")]
        (freshProcess 2 true) = .ok (vs, p') ∧
      vs.length = ([("foo", "M1"), ("bar", "M2"), ("baz", "M3")] :
        List (String × String)).length ∧
      p'.OptBisector.BisectLimit = (freshProcess 2 true).OptBisector.BisectLimit ∧
      p'.OptBisectVerbose = (freshProcess 2 true).OptBisectVerbose ∧
      (getGlobalPassGate p').isEnabled 2147483647 = true) ∧
    (∀ (n : Nat) (hn : n < ([("foo", "M1"), ("bar", "M2"), ("baz", "M3")] :
        List (String × String)).length),
      ∃ vs q v q', runPasses 2147483647
          (([("foo", "M1"), ("bar", "M2"), ("baz", "M3")] : List (String × String)).take n)
          (freshProcess 2 true) = .ok (vs, q) ∧
        q.OptBisector.BisectLimit = (freshProcess 2 true).OptBisector.BisectLimit ∧
        q.OptBisectVerbose = (freshProcess 2 true).OptBisectVerbose ∧
        (getGlobalPassGate q).isEnabled 2147483647 = true ∧
        shouldRunPass 2147483647
          ([("foo", "M1"), ("bar", "M2"), ("baz", "M3")] : List (String × String))[n].1
          ([("foo", "M1"), ("bar", "M2"), ("baz", "M3")] : List (String × String))[n].2 q
          = .ok (v, q') ∧
        (v = true ↔ (freshProcess 2 true).OptBisector.BisectLimit = -1 ∨
          q'.OptBisector.LastBisectNum ≤ (freshProcess 2 true).OptBisector.BisectLimit) ∧
        runPasses 2147483647
          (([("foo", "M1"), ("bar", "M2"), ("baz", "M3")] : List (String × String)).take
            (n + 1))
          (freshProcess 2 true) = .ok (vs ++ [v], q')) :=
  shouldRunPass_frame 2147483647 [("foo", "M1"), ("bar", "M2"), ("baz", "M3")] "foo" "M1"
    (freshProcess 2 true) (by decide)


end llvm
